import Mathlib

/-!
Verification of the tic-tac-toe game engine (src/game.js).

The pure game-logic portion of game.js is embedded shallowly:

* a board cell (JS values "X", "O", null) becomes `Option Mark`;
* the field `state.winner` (JS values "X", "O", "draw", null) becomes
  `Option Winner`;
* a JS array read `board[index]` at an `Int` index becomes `jsGet`, whose
  result `none` models the JS value `undefined` (an out-of-range read), and
  whose result `some c` models a defined cell `c`;
* `checkWinner`, `checkDraw`, `handleCellClick`, `resetGame` and
  `createInitialState` are translated function by function. `render` and the
  other DOM helpers read the DOM only and never write a field of `state`, so
  the match state after `handleCellClick` is fully described by the pure
  transition below.
-/

namespace TicTacToe

/-- A player mark: the JS strings "X" and "O". -/
inductive Mark where
  | X
  | O
deriving DecidableEq, Repr

/-- A board cell: `some` mark, or `none` for the JS value `null` (empty). -/
abbrev Cell := Option Mark

/-- A non-null value of the JS field `state.winner`: "X", "O" or "draw". -/
inductive Winner where
  | X
  | O
  | draw
deriving DecidableEq, Repr

/-- The injection used when `state.winner = winResult.winner` stores a mark. -/
def Mark.toWinner : Mark → Winner
  | .X => .X
  | .O => .O

/-- The player switch `state.currentPlayer === "X" ? "O" : "X"` of game.js
line 217. -/
def Mark.other : Mark → Mark
  | .X => .O
  | .O => .X

/-- A win line: an index triple from the catalog. -/
abbrev Line := Nat × Nat × Nat

/-- The catalog of the 8 win lines (game.js lines 11-20), in source order. -/
def WIN_LINES : List Line :=
  [(0, 1, 2), (3, 4, 5), (6, 7, 8),
   (0, 3, 6), (1, 4, 7), (2, 5, 8),
   (0, 4, 8), (2, 4, 6)]

/-- The match state aggregate (the JS `state` object). -/
structure GameState where
  board : List Cell
  currentPlayer : Mark
  winner : Option Winner
  winningLine : Option Line
deriving DecidableEq, Repr

/-- Source function `createInitialState` (game.js lines 34-41). -/
def createInitialState : GameState :=
  { board := List.replicate 9 none
    currentPlayer := Mark.X
    winner := none
    winningLine := none }

/-- A JS array read `board[i]` at an arbitrary `Int` index: `none` models the
JS value `undefined` (index negative or beyond the array length), `some c`
models the stored cell. -/
def jsGet (board : List Cell) (i : Int) : Option Cell :=
  if h : 0 ≤ i ∧ i.toNat < board.length then some (board.get ⟨i.toNat, h.2⟩)
  else none

/-- One iteration of the `checkWinner` loop body (game.js line 55): the test
`board[a] && board[a] === board[b] && board[a] === board[c]`, returning the
`{ winner, winningLine }` record on a hit. A read of a too-short board would
be `undefined`, which is falsy and never `===`-equal to a mark, which is
exactly what `List.getD _ _ none` gives. -/
def lineHit (board : List Cell) (l : Line) : Option (Mark × Line) :=
  match board.getD l.1 none with
  | none => none
  | some m =>
    if board.getD l.2.1 none = some m ∧ board.getD l.2.2 none = some m then
      some (m, l)
    else none

/-- The `for (const line of WIN_LINES)` loop of `checkWinner`: first hit is
returned, falling through to `null` after the last line. -/
def checkWinnerAux (board : List Cell) : List Line → Option (Mark × Line)
  | [] => none
  | l :: rest =>
    match lineHit board l with
    | some r => some r
    | none => checkWinnerAux board rest

/-- Source function `checkWinner` (game.js lines 52-60). -/
def checkWinner (board : List Cell) : Option (Mark × Line) :=
  checkWinnerAux board WIN_LINES

/-- Source function `checkDraw` (game.js lines 67-70):
`if (checkWinner(board) !== null) return false;`
then `return board.every((cell) => cell !== null);`. -/
def checkDraw (board : List Cell) : Bool :=
  if checkWinner board ≠ none then false
  else board.all fun cell => cell.isSome

/-- The board after the write `state.board[index] = state.currentPlayer`
(game.js line 205); the write only happens once the guard has established
that `index` is in range and the cell is empty. -/
def placedBoard (s : GameState) (index : Int) : List Cell :=
  s.board.set index.toNat (some s.currentPlayer)

/-- Source function `handleCellClick` (game.js lines 198-221), as a pure
state transition. The guard is
`state.board[index] !== null || state.winner !== null`: the read
`state.board[index]` is `!== null` both when the cell holds a mark and when
the index is out of range (the read is then `undefined`), i.e. exactly when
`jsGet s.board index ≠ some none`. The trailing `render()` writes only to
the DOM, never to `state`. -/
def handleCellClick (s : GameState) (index : Int) : GameState :=
  if jsGet s.board index ≠ some none ∨ s.winner ≠ none then s
  else
    match checkWinner (placedBoard s index) with
    | some (w, l) =>
      { s with board := placedBoard s index,
               winner := some w.toWinner, winningLine := some l }
    | none =>
      if checkDraw (placedBoard s index) then
        { s with board := placedBoard s index,
                 winner := some Winner.draw, winningLine := none }
      else
        { s with board := placedBoard s index,
                 currentPlayer := s.currentPlayer.other }

/-- Source function `resetGame` (game.js lines 226-238):
`state = createInitialState()`; the rest of the function only rewrites DOM
attributes. -/
def resetGame (_s : GameState) : GameState :=
  createInitialState

/-- A sequence of clicks, as in `moves.forEach((i) => handleCellClick(i))`
from the test suite. -/
def applyMoves (s : GameState) (moves : List Int) : GameState :=
  moves.foldl handleCellClick s

/-- A click that is accepted (the guard does not fire) and leaves the match
still in progress afterwards. -/
def acceptedNonTerminal (s : GameState) (index : Int) : Bool :=
  decide (s.winner = none) && decide (jsGet s.board index = some none) &&
    decide ((handleCellClick s index).winner = none)

/-- Every click of the sequence is accepted and non-terminal at its turn. -/
def allAcceptedNonTerminal : GameState → List Int → Bool
  | _, [] => true
  | s, i :: rest =>
    acceptedNonTerminal s i && allAcceptedNonTerminal (handleCellClick s i) rest

/-- The states reachable from the initial state by clicks and resets. -/
inductive Reachable : GameState → Prop where
  | init : Reachable createInitialState
  | click (s : GameState) (index : Int) :
      Reachable s → Reachable (handleCellClick s index)
  | reset (s : GameState) : Reachable s → Reachable (resetGame s)

/-- Number of cells of the board holding the given mark. -/
def countMark (board : List Cell) (m : Mark) : Nat :=
  board.count (some m)

/-- Spec wording: the three cells of line `l` are non-empty and identical,
all holding mark `m`. -/
def lineFilledBy (board : List Cell) (l : Line) (m : Mark) : Prop :=
  board.getD l.1 none = some m ∧ board.getD l.2.1 none = some m ∧
    board.getD l.2.2 none = some m

/-- Specification contract of `evaluate outcome(board)`, written from the
spec's words for comparison with `checkWinner`: the result is `none` when no
catalog line has three non-empty identical cells, and otherwise the earliest
such line in catalog order paired with its mark. -/
def WinnerSpec (board : List Cell) (r : Option (Mark × Line)) : Prop :=
  match r with
  | none => ∀ l ∈ WIN_LINES, ∀ m, ¬ lineFilledBy board l m
  | some (m, l) =>
    ∃ pre post, WIN_LINES = pre ++ l :: post ∧ lineFilledBy board l m ∧
      ∀ l2 ∈ pre, ∀ m2, ¬ lineFilledBy board l2 m2

/-- A board on which the X rows [0,1,2] and [3,4,5] win simultaneously. -/
def doubleWinBoard : List Cell :=
  [some Mark.X, some Mark.X, some Mark.X,
   some Mark.X, some Mark.X, some Mark.X,
   none, none, none]

/-- Invariant relating the mark counts to the player to move; it is
preserved by every click and restored by reset. -/
def BalanceInv (s : GameState) : Prop :=
  (s.winner = none →
    ((countMark s.board Mark.X = countMark s.board Mark.O ∧
        s.currentPlayer = Mark.X) ∨
     (countMark s.board Mark.X = countMark s.board Mark.O + 1 ∧
        s.currentPlayer = Mark.O))) ∧
  (countMark s.board Mark.X = countMark s.board Mark.O ∨
   countMark s.board Mark.X = countMark s.board Mark.O + 1)

/-! ## Helper lemmas -/

theorem Mark.other_other (m : Mark) : m.other.other = m := by
  cases m <;> rfl

theorem jsGet_eq_some_none (board : List Cell) (index : Int)
    (h : jsGet board index = some none) :
    0 ≤ index ∧ index.toNat < board.length ∧
      board.getD index.toNat none = none := by
  unfold jsGet at h
  split at h
  · next hcond =>
    injection h with h2
    refine ⟨hcond.1, hcond.2, ?_⟩
    rw [List.getD_eq_getElem?_getD, List.getElem?_eq_getElem hcond.2]
    simpa using h2
  · exact absurd h (by simp)

theorem jsGet_out_of_range (board : List Cell) (index : Int)
    (h : ¬ (0 ≤ index ∧ index.toNat < board.length)) :
    jsGet board index = none := by
  unfold jsGet
  exact dif_neg h

theorem getD_set_self (board : List Cell) (i : Nat) (v : Cell)
    (hi : i < board.length) : (board.set i v).getD i none = v := by
  rw [List.getD_eq_getElem?_getD, List.getElem?_set_eq_of_lt v hi]
  rfl

theorem getD_set_other (board : List Cell) (i j : Nat) (v : Cell)
    (hij : i ≠ j) : (board.set i v).getD j none = board.getD j none := by
  rw [List.getD_eq_getElem?_getD, List.getElem?_set_ne hij,
    ← List.getD_eq_getElem?_getD]

theorem lineFilledBy_of_lineHit (board : List Cell) (l : Line)
    (r : Mark × Line) (h : lineHit board l = some r) :
    r.2 = l ∧ lineFilledBy board l r.1 := by
  unfold lineHit at h
  split at h
  · exact absurd h (by simp)
  · rename_i m hb
    split at h
    · rename_i hcond
      injection h with h2
      subst h2
      exact ⟨rfl, hb, hcond.1, hcond.2⟩
    · exact absurd h (by simp)

theorem not_lineFilledBy_of_lineHit_none (board : List Cell) (l : Line)
    (h : lineHit board l = none) : ∀ m, ¬ lineFilledBy board l m := by
  intro m hf
  obtain ⟨h1, h2, h3⟩ := hf
  unfold lineHit at h
  split at h
  · rename_i hb
    rw [h1] at hb
    exact absurd hb (by simp)
  · rename_i m2 hb
    rw [h1] at hb
    injection hb with hb2
    subst hb2
    rw [if_pos ⟨h2, h3⟩] at h
    exact absurd h (by simp)

theorem checkWinnerAux_none (board : List Cell) :
    ∀ ls : List Line, checkWinnerAux board ls = none →
      ∀ l ∈ ls, ∀ m, ¬ lineFilledBy board l m := by
  intro ls
  induction ls with
  | nil => simp
  | cons hd tl ih =>
    intro h l hl m
    simp only [checkWinnerAux] at h
    cases hh : lineHit board hd with
    | some r => rw [hh] at h; exact absurd h (by simp)
    | none =>
      rw [hh] at h
      rcases List.mem_cons.mp hl with rfl | hmem
      · exact not_lineFilledBy_of_lineHit_none board l hh m
      · exact ih h l hmem m

theorem checkWinnerAux_some (board : List Cell) :
    ∀ (ls : List Line) (m : Mark) (l : Line),
      checkWinnerAux board ls = some (m, l) →
      ∃ pre post, ls = pre ++ l :: post ∧ lineFilledBy board l m ∧
        ∀ l2 ∈ pre, ∀ m2, ¬ lineFilledBy board l2 m2 := by
  intro ls
  induction ls with
  | nil => intro m l h; exact absurd h (by simp [checkWinnerAux])
  | cons hd tl ih =>
    intro m l h
    simp only [checkWinnerAux] at h
    cases hh : lineHit board hd with
    | some r =>
      rw [hh] at h
      injection h with h2
      subst h2
      obtain ⟨hl, hf⟩ := lineFilledBy_of_lineHit board hd (m, l) hh
      have hl2 : l = hd := hl
      have hf2 : lineFilledBy board hd m := hf
      subst hl2
      exact ⟨[], tl, rfl, hf2, by simp⟩
    | none =>
      rw [hh] at h
      obtain ⟨pre, post, heq, hf, hpre⟩ := ih m l h
      refine ⟨hd :: pre, post, by rw [heq, List.cons_append], hf, ?_⟩
      intro l2 hl2 m2
      rcases List.mem_cons.mp hl2 with rfl | hmem
      · exact not_lineFilledBy_of_lineHit_none board l2 hh m2
      · exact hpre l2 hmem m2

theorem checkWinnerAux_eq_none (board : List Cell) :
    ∀ ls : List Line, (∀ l ∈ ls, ∀ m, ¬ lineFilledBy board l m) →
      checkWinnerAux board ls = none := by
  intro ls
  induction ls with
  | nil => intro _; rfl
  | cons hd tl ih =>
    intro h
    simp only [checkWinnerAux]
    cases hh : lineHit board hd with
    | some r =>
      obtain ⟨-, hf⟩ := lineFilledBy_of_lineHit board hd r hh
      exact absurd hf (h hd (by simp) r.1)
    | none => exact ih fun l hl m => h l (by simp [hl]) m

theorem new_winner_is_mover (board : List Cell) (i : Nat) (m : Mark)
    (hi : i < board.length) (hno : checkWinner board = none)
    (w : Mark) (l : Line)
    (hw : checkWinner (board.set i (some m)) = some (w, l)) : w = m := by
  obtain ⟨pre, post, heq, hf, -⟩ := checkWinnerAux_some _ WIN_LINES w l hw
  have hlmem : l ∈ WIN_LINES := by
    rw [heq]
    exact List.mem_append_right _ (by simp)
  have hnof := checkWinnerAux_none board WIN_LINES hno l hlmem
  obtain ⟨hf1, hf2, hf3⟩ := hf
  by_cases h1 : i = l.1
  · rw [← h1, getD_set_self board i (some m) hi] at hf1
    injection hf1 with h4
    exact h4.symm
  · by_cases h2 : i = l.2.1
    · rw [← h2, getD_set_self board i (some m) hi] at hf2
      injection hf2 with h4
      exact h4.symm
    · by_cases h3 : i = l.2.2
      · rw [← h3, getD_set_self board i (some m) hi] at hf3
        injection hf3 with h4
        exact h4.symm
      · exfalso
        rw [getD_set_other board i l.1 (some m) h1] at hf1
        rw [getD_set_other board i l.2.1 (some m) h2] at hf2
        rw [getD_set_other board i l.2.2 (some m) h3] at hf3
        exact hnof w ⟨hf1, hf2, hf3⟩

theorem handleCellClick_accepted_board (s : GameState) (index : Int)
    (hw : s.winner = none) (hcell : jsGet s.board index = some none) :
    (handleCellClick s index).board = placedBoard s index := by
  unfold handleCellClick
  rw [if_neg (by push_neg; exact ⟨hcell, hw⟩)]
  split
  · rfl
  · split
    · rfl
    · rfl

theorem handleCellClick_accepted_win (s : GameState) (index : Int)
    (w : Mark) (l : Line)
    (hw : s.winner = none) (hcell : jsGet s.board index = some none)
    (hcw : checkWinner (placedBoard s index) = some (w, l)) :
    handleCellClick s index =
      { s with board := placedBoard s index,
               winner := some w.toWinner, winningLine := some l } := by
  unfold handleCellClick
  rw [if_neg (by push_neg; exact ⟨hcell, hw⟩)]
  split
  · rename_i w2 l2 heq
    rw [hcw] at heq
    injection heq with heq2
    injection heq2 with heq3 heq4
    subst heq3
    subst heq4
    rfl
  · rename_i heq
    rw [hcw] at heq
    exact absurd heq (by simp)

theorem handleCellClick_accepted_draw (s : GameState) (index : Int)
    (hw : s.winner = none) (hcell : jsGet s.board index = some none)
    (hcw : checkWinner (placedBoard s index) = none)
    (hd : checkDraw (placedBoard s index) = true) :
    handleCellClick s index =
      { s with board := placedBoard s index,
               winner := some Winner.draw, winningLine := none } := by
  unfold handleCellClick
  rw [if_neg (by push_neg; exact ⟨hcell, hw⟩)]
  split
  · rename_i w2 l2 heq
    rw [hcw] at heq
    exact absurd heq (by simp)
  · rw [if_pos hd]

theorem handleCellClick_accepted_progress (s : GameState) (index : Int)
    (hw : s.winner = none) (hcell : jsGet s.board index = some none)
    (hcw : checkWinner (placedBoard s index) = none)
    (hd : checkDraw (placedBoard s index) = false) :
    handleCellClick s index =
      { s with board := placedBoard s index,
               currentPlayer := s.currentPlayer.other } := by
  unfold handleCellClick
  rw [if_neg (by push_neg; exact ⟨hcell, hw⟩)]
  split
  · rename_i w2 l2 heq
    rw [hcw] at heq
    exact absurd heq (by simp)
  · rw [if_neg (by rw [hd]; simp)]

theorem click_flips_of_accepted_progress (s : GameState) (index : Int)
    (hw : s.winner = none) (hcell : jsGet s.board index = some none)
    (hnt : (handleCellClick s index).winner = none) :
    (handleCellClick s index).currentPlayer = s.currentPlayer.other := by
  cases hcw : checkWinner (placedBoard s index) with
  | some r =>
    cases r with
    | mk w l =>
      rw [handleCellClick_accepted_win s index w l hw hcell hcw] at hnt
      exact absurd hnt (by simp)
  | none =>
    cases hd : checkDraw (placedBoard s index) with
    | true =>
      rw [handleCellClick_accepted_draw s index hw hcell hcw hd] at hnt
      exact absurd hnt (by simp)
    | false =>
      rw [handleCellClick_accepted_progress s index hw hcell hcw hd]

theorem applyMoves_parity :
    ∀ (moves : List Int) (s : GameState),
      allAcceptedNonTerminal s moves = true →
      (applyMoves s moves).currentPlayer =
        if moves.length % 2 = 0 then s.currentPlayer
        else s.currentPlayer.other := by
  intro moves
  induction moves with
  | nil =>
    intro s _
    simp [applyMoves]
  | cons i rest ih =>
    intro s h
    simp only [allAcceptedNonTerminal, Bool.and_eq_true] at h
    obtain ⟨hacc, hrest⟩ := h
    simp only [acceptedNonTerminal, Bool.and_eq_true,
      decide_eq_true_eq] at hacc
    obtain ⟨⟨hw, hcell⟩, hnt⟩ := hacc
    have hflip := click_flips_of_accepted_progress s i hw hcell hnt
    have hih := ih (handleCellClick s i) hrest
    have happ : applyMoves s (i :: rest) =
        applyMoves (handleCellClick s i) rest := rfl
    rw [happ, hih, hflip]
    by_cases hpar : rest.length % 2 = 0
    · rw [if_pos hpar,
        if_neg (by simp only [List.length_cons]; omega)]
    · rw [if_neg hpar,
        if_pos (by simp only [List.length_cons]; omega),
        Mark.other_other]

theorem count_set_eq (board : List Cell) :
    ∀ i : Nat, i < board.length → board.getD i none = none →
      ∀ v m : Mark,
        (board.set i (some v)).count (some m) =
          board.count (some m) + (if m = v then 1 else 0) := by
  induction board with
  | nil =>
    intro i hi
    exact absurd hi (by simp)
  | cons hd tl ih =>
    intro i hi hempty v m
    cases i with
    | zero =>
      have hhd : hd = none := by simpa using hempty
      subst hhd
      show (some v :: tl).count (some m) =
        (none :: tl).count (some m) + (if m = v then 1 else 0)
      rw [List.count_cons, List.count_cons]
      by_cases hmv : m = v
      · subst hmv
        simp
      · have h1 : ((some v : Cell) == some m) = false := by
          simp
          exact fun h2 => hmv h2.symm
        have h2 : ((none : Cell) == some m) = false := by simp
        rw [h1, h2]
        simp [hmv]
    | succ j =>
      have hj : j < tl.length := by simpa using hi
      have hje : tl.getD j none = none := by simpa using hempty
      have hrec := ih j hj hje v m
      show (hd :: tl.set j (some v)).count (some m) =
        (hd :: tl).count (some m) + (if m = v then 1 else 0)
      rw [List.count_cons, List.count_cons, hrec]
      omega

theorem countMark_placed (s : GameState) (index : Int)
    (hcell : jsGet s.board index = some none) (m : Mark) :
    countMark (placedBoard s index) m =
      countMark s.board m + (if m = s.currentPlayer then 1 else 0) := by
  obtain ⟨-, hlt, hempty⟩ := jsGet_eq_some_none s.board index hcell
  exact count_set_eq s.board index.toNat hlt hempty s.currentPlayer m

theorem balanceInv_click (s : GameState) (index : Int)
    (h : BalanceInv s) : BalanceInv (handleCellClick s index) := by
  by_cases hguard : jsGet s.board index ≠ some none ∨ s.winner ≠ none
  · have hnoop : handleCellClick s index = s := by
      unfold handleCellClick
      rw [if_pos hguard]
    rw [hnoop]
    exact h
  · push_neg at hguard
    obtain ⟨hcell, hw⟩ := hguard
    obtain ⟨hprog, -⟩ := h
    have hX := countMark_placed s index hcell Mark.X
    have hO := countMark_placed s index hcell Mark.O
    rcases hprog hw with ⟨hc, hcp⟩ | ⟨hc, hcp⟩
    · rw [hcp] at hX hO
      simp at hX hO
      cases hcw : checkWinner (placedBoard s index) with
      | some r =>
        cases r with
        | mk w l =>
          rw [handleCellClick_accepted_win s index w l hw hcell hcw]
          refine ⟨fun hnone => absurd hnone (by simp), Or.inr ?_⟩
          show countMark (placedBoard s index) Mark.X =
            countMark (placedBoard s index) Mark.O + 1
          omega
      | none =>
        cases hd : checkDraw (placedBoard s index) with
        | true =>
          rw [handleCellClick_accepted_draw s index hw hcell hcw hd]
          refine ⟨fun hnone => absurd hnone (by simp), Or.inr ?_⟩
          show countMark (placedBoard s index) Mark.X =
            countMark (placedBoard s index) Mark.O + 1
          omega
        | false =>
          rw [handleCellClick_accepted_progress s index hw hcell hcw hd]
          refine ⟨fun _ => Or.inr ⟨?_, ?_⟩, Or.inr ?_⟩
          · show countMark (placedBoard s index) Mark.X =
              countMark (placedBoard s index) Mark.O + 1
            omega
          · show s.currentPlayer.other = Mark.O
            rw [hcp]
            rfl
          · show countMark (placedBoard s index) Mark.X =
              countMark (placedBoard s index) Mark.O + 1
            omega
    · rw [hcp] at hX hO
      simp at hX hO
      cases hcw : checkWinner (placedBoard s index) with
      | some r =>
        cases r with
        | mk w l =>
          rw [handleCellClick_accepted_win s index w l hw hcell hcw]
          refine ⟨fun hnone => absurd hnone (by simp), Or.inl ?_⟩
          show countMark (placedBoard s index) Mark.X =
            countMark (placedBoard s index) Mark.O
          omega
      | none =>
        cases hd : checkDraw (placedBoard s index) with
        | true =>
          rw [handleCellClick_accepted_draw s index hw hcell hcw hd]
          refine ⟨fun hnone => absurd hnone (by simp), Or.inl ?_⟩
          show countMark (placedBoard s index) Mark.X =
            countMark (placedBoard s index) Mark.O
          omega
        | false =>
          rw [handleCellClick_accepted_progress s index hw hcell hcw hd]
          refine ⟨fun _ => Or.inl ⟨?_, ?_⟩, Or.inl ?_⟩
          · show countMark (placedBoard s index) Mark.X =
              countMark (placedBoard s index) Mark.O
            omega
          · show s.currentPlayer.other = Mark.X
            rw [hcp]
            rfl
          · show countMark (placedBoard s index) Mark.X =
              countMark (placedBoard s index) Mark.O
            omega

theorem balanceInv_reachable (s : GameState) (h : Reachable s) :
    BalanceInv s := by
  induction h with
  | init =>
    exact ⟨fun _ => Or.inl ⟨by decide, by decide⟩, Or.inl (by decide)⟩
  | click s2 index h2 ih => exact balanceInv_click s2 index ih
  | reset s2 h2 ih =>
    show BalanceInv createInitialState
    exact ⟨fun _ => Or.inl ⟨by decide, by decide⟩, Or.inl (by decide)⟩

/-! ## Claim theorems -/

/-- C1: For every match state whose outcome is terminal (winner recorded as
'X', 'O', or 'draw') and for every in-range index, and for every state whose
target cell is already occupied, `handleCellClick index` leaves the match
state (board, currentPlayer, winner, winningLine) equal to the pre-call
state: Won and Draw states admit no state change by any move. -/
theorem terminal_or_occupied_click_is_noop (s : GameState) (index : Int)
    (h : (s.winner ≠ none ∧ 0 ≤ index ∧ index.toNat < s.board.length) ∨
      (∃ m : Mark, jsGet s.board index = some (some m))) :
    handleCellClick s index = s := by
  unfold handleCellClick
  rcases h with ⟨hw, -, -⟩ | ⟨m, hm⟩
  · rw [if_pos (Or.inr hw)]
  · rw [if_pos (Or.inl (by rw [hm]; simp))]

theorem terminal_or_occupied_click_is_noop_witness :
    ((({ createInitialState with
          winner := some Winner.X } : GameState).winner ≠ none ∧
        0 ≤ (4 : Int) ∧
        (4 : Int).toNat <
          ({ createInitialState with
              winner := some Winner.X } : GameState).board.length) ∨
      (∃ m : Mark,
        jsGet ({ createInitialState with
          winner := some Winner.X } : GameState).board 4 = some (some m))) ∧
    handleCellClick { createInitialState with winner := some Winner.X } 4 =
      { createInitialState with winner := some Winner.X } :=
  ⟨Or.inl ⟨by decide, by decide, by decide⟩,
    terminal_or_occupied_click_is_noop
      { createInitialState with winner := some Winner.X } 4
      (Or.inl ⟨by decide, by decide, by decide⟩)⟩

/-- C2: `checkWinner` scans the 8 catalog lines of `WIN_LINES` in order and
returns the first line whose three cells are non-empty and identical,
together with that mark as winner; it returns `none` exactly when no such
line exists; on a board with two simultaneous winning lines (here
`doubleWinBoard`, winning on [0,1,2] and [3,4,5]) the earliest-listed
catalog line is returned. -/
theorem checkWinner_first_catalog_line :
    (∀ board : List Cell, WinnerSpec board (checkWinner board)) ∧
    (∀ board : List Cell, checkWinner board = none ↔
      ∀ l ∈ WIN_LINES, ∀ m, ¬ lineFilledBy board l m) ∧
    checkWinner doubleWinBoard = some (Mark.X, (0, 1, 2)) := by
  refine ⟨?_, ?_, by decide⟩
  · intro board
    unfold WinnerSpec
    cases hcw : checkWinner board with
    | none =>
      intro l hl m
      exact checkWinnerAux_none board WIN_LINES hcw l hl m
    | some r =>
      cases r with
      | mk m l => exact checkWinnerAux_some board WIN_LINES m l hcw
  · intro board
    exact ⟨fun h l hl m => checkWinnerAux_none board WIN_LINES h l hl m,
      fun h => checkWinnerAux_eq_none board WIN_LINES h⟩

/-- C3 counterexample: at the spec's own example inputs 9 and -1,
`handleCellClick` does not signal any designated error: the call returns
with the match state unchanged, i.e. it is silently absorbed exactly like
the occupied-cell no-op guard, contradicting the claim that an explicit
error distinct from the silent guard is signaled. -/
theorem out_of_range_click_not_signaled :
    handleCellClick createInitialState 9 = createInitialState ∧
    handleCellClick createInitialState (-1) = createInitialState := by
  constructor <;> decide

/-- C3 amended: for every match state with a 9-cell board and every index
outside [0,8], `handleCellClick` is silently absorbed by the same guard as
an occupied-cell move (the out-of-range board read is `undefined`, which is
not `=== null`, so the guard condition holds) and leaves the state
unchanged; no distinct error is signaled. -/
theorem out_of_range_click_silently_guarded (s : GameState) (index : Int)
    (hb : s.board.length = 9) (hout : ¬ (0 ≤ index ∧ index < 9)) :
    jsGet s.board index ≠ some none ∧ handleCellClick s index = s := by
  have hnone : jsGet s.board index = none := by
    apply jsGet_out_of_range
    rw [hb]
    omega
  refine ⟨by rw [hnone]; simp, ?_⟩
  unfold handleCellClick
  rw [if_pos (Or.inl (by rw [hnone]; simp))]

theorem out_of_range_click_silently_guarded_witness :
    (createInitialState.board.length = 9 ∧
      ¬ (0 ≤ (9 : Int) ∧ (9 : Int) < 9)) ∧
    jsGet createInitialState.board 9 ≠ some none ∧
    handleCellClick createInitialState 9 = createInitialState :=
  ⟨⟨by decide, by decide⟩,
    out_of_range_click_silently_guarded createInitialState 9
      (by decide) (by decide)⟩

/-- C4: For every accepted move (non-terminal state, empty target cell): if
the updated board has a winner, the outcome becomes won by that winner with
the detected line and currentPlayer is not flipped (on any board that had no
winner before the move — in particular every reachable one — the detected
winner is the pre-call currentPlayer itself); otherwise if the updated board
is a draw, the outcome becomes 'draw' with no winning line and no player
flip; otherwise the outcome stays in progress and currentPlayer flips to the
other symbol. -/
theorem accepted_move_outcome (s : GameState) (index : Int)
    (hterm : s.winner = none) (hcell : jsGet s.board index = some none) :
    (∀ w l, checkWinner (placedBoard s index) = some (w, l) →
      handleCellClick s index =
        { s with board := placedBoard s index,
                 winner := some w.toWinner, winningLine := some l } ∧
      (handleCellClick s index).currentPlayer = s.currentPlayer ∧
      (checkWinner s.board = none → w = s.currentPlayer)) ∧
    (checkWinner (placedBoard s index) = none →
      checkDraw (placedBoard s index) = true →
      handleCellClick s index =
        { s with board := placedBoard s index,
                 winner := some Winner.draw, winningLine := none } ∧
      (handleCellClick s index).currentPlayer = s.currentPlayer) ∧
    (checkWinner (placedBoard s index) = none →
      checkDraw (placedBoard s index) = false →
      handleCellClick s index =
        { s with board := placedBoard s index,
                 currentPlayer := s.currentPlayer.other } ∧
      (handleCellClick s index).winner = none ∧
      (handleCellClick s index).winningLine = s.winningLine) := by
  obtain ⟨-, hlt, -⟩ := jsGet_eq_some_none s.board index hcell
  refine ⟨?_, ?_, ?_⟩
  · intro w l hcw
    have hmain := handleCellClick_accepted_win s index w l hterm hcell hcw
    refine ⟨hmain, by rw [hmain], ?_⟩
    intro hnob
    exact new_winner_is_mover s.board index.toNat s.currentPlayer hlt hnob
      w l hcw
  · intro hcw hd
    have hmain := handleCellClick_accepted_draw s index hterm hcell hcw hd
    exact ⟨hmain, by rw [hmain]⟩
  · intro hcw hd
    have hmain :=
      handleCellClick_accepted_progress s index hterm hcell hcw hd
    refine ⟨hmain, ?_, by rw [hmain]⟩
    rw [hmain]
    exact hterm

theorem accepted_move_outcome_witness :
    (createInitialState.winner = none ∧
      jsGet createInitialState.board 0 = some none) ∧
    ((∀ w l, checkWinner (placedBoard createInitialState 0) = some (w, l) →
      handleCellClick createInitialState 0 =
        { createInitialState with
            board := placedBoard createInitialState 0,
            winner := some w.toWinner, winningLine := some l } ∧
      (handleCellClick createInitialState 0).currentPlayer =
        createInitialState.currentPlayer ∧
      (checkWinner createInitialState.board = none →
        w = createInitialState.currentPlayer)) ∧
    (checkWinner (placedBoard createInitialState 0) = none →
      checkDraw (placedBoard createInitialState 0) = true →
      handleCellClick createInitialState 0 =
        { createInitialState with
            board := placedBoard createInitialState 0,
            winner := some Winner.draw, winningLine := none } ∧
      (handleCellClick createInitialState 0).currentPlayer =
        createInitialState.currentPlayer) ∧
    (checkWinner (placedBoard createInitialState 0) = none →
      checkDraw (placedBoard createInitialState 0) = false →
      handleCellClick createInitialState 0 =
        { createInitialState with
            board := placedBoard createInitialState 0,
            currentPlayer := createInitialState.currentPlayer.other } ∧
      (handleCellClick createInitialState 0).winner = none ∧
      (handleCellClick createInitialState 0).winningLine =
        createInitialState.winningLine)) :=
  ⟨⟨by decide, by decide⟩,
    accepted_move_outcome createInitialState 0 (by decide) (by decide)⟩

/-- C5: For every 9-cell board, `checkDraw board` returns true if and only
if `checkWinner board` reports no winner and every one of the 9 cells is
occupied; in particular it returns false for every board on which a winner
exists, regardless of how full the board is. -/
theorem checkDraw_iff_full_and_no_winner (board : List Cell)
    (hb : board.length = 9) :
    (checkDraw board = true ↔
      (checkWinner board = none ∧
        ∀ i, i < 9 → (board.getD i none).isSome = true)) ∧
    (checkWinner board ≠ none → checkDraw board = false) := by
  constructor
  · by_cases hw : checkWinner board = none
    · unfold checkDraw
      rw [if_neg (not_not_intro hw), List.all_eq_true]
      constructor
      · intro h
        refine ⟨hw, ?_⟩
        intro i hi
        have hi2 : i < board.length := by omega
        have hmem := h (board.get ⟨i, hi2⟩) (board.get_mem i hi2)
        rw [List.getD_eq_getElem?_getD, List.getElem?_eq_getElem hi2]
        simpa using hmem
      · rintro ⟨-, h⟩ c hc
        rw [List.mem_iff_get] at hc
        obtain ⟨n, rfl⟩ := hc
        have hn9 : (n : Nat) < 9 := by
          have := n.2
          omega
        have := h n hn9
        rw [List.getD_eq_getElem?_getD, List.getElem?_eq_getElem n.2] at this
        simpa using this
    · unfold checkDraw
      rw [if_pos hw]
      constructor
      · intro h
        exact absurd h (by simp)
      · rintro ⟨h1, -⟩
        exact absurd h1 hw
  · intro hw
    unfold checkDraw
    rw [if_pos hw]

theorem checkDraw_iff_full_and_no_winner_witness :
    (List.replicate 9 (none : Cell)).length = 9 ∧
    ((checkDraw (List.replicate 9 (none : Cell)) = true ↔
      (checkWinner (List.replicate 9 (none : Cell)) = none ∧
        ∀ i, i < 9 →
          ((List.replicate 9 (none : Cell)).getD i none).isSome = true)) ∧
    (checkWinner (List.replicate 9 (none : Cell)) ≠ none →
      checkDraw (List.replicate 9 (none : Cell)) = false)) :=
  ⟨by decide,
    checkDraw_iff_full_and_no_winner (List.replicate 9 none) (by decide)⟩

/-- C6: For every match state with a 9-cell board and every in-range index,
after `handleCellClick index` the board differs from the pre-call board in
at most one cell, and that cell differs only by changing from empty to the
pre-call currentPlayer's symbol; all other cells are unchanged. -/
theorem click_changes_at_most_target_cell (s : GameState) (index : Int)
    (hb : s.board.length = 9) (h0 : 0 ≤ index) (h8 : index < 9) :
    ∀ i : Nat,
      (handleCellClick s index).board.getD i none = s.board.getD i none ∨
      (i = index.toNat ∧ s.board.getD i none = none ∧
        (handleCellClick s index).board.getD i none =
          some s.currentPlayer) := by
  intro i
  by_cases hguard : jsGet s.board index ≠ some none ∨ s.winner ≠ none
  · left
    unfold handleCellClick
    rw [if_pos hguard]
  · push_neg at hguard
    obtain ⟨hcell, hw⟩ := hguard
    obtain ⟨-, hlt, hempty⟩ := jsGet_eq_some_none s.board index hcell
    rw [handleCellClick_accepted_board s index hw hcell]
    by_cases hi : i = index.toNat
    · subst hi
      right
      exact ⟨rfl, hempty,
        getD_set_self s.board index.toNat (some s.currentPlayer) hlt⟩
    · left
      exact getD_set_other s.board index.toNat i (some s.currentPlayer)
        fun hh => hi hh.symm

theorem click_changes_at_most_target_cell_witness :
    (createInitialState.board.length = 9 ∧ 0 ≤ (0 : Int) ∧ (0 : Int) < 9) ∧
    ∀ i : Nat,
      (handleCellClick createInitialState 0).board.getD i none =
        createInitialState.board.getD i none ∨
      (i = (0 : Int).toNat ∧
        createInitialState.board.getD i none = none ∧
        (handleCellClick createInitialState 0).board.getD i none =
          some createInitialState.currentPlayer) :=
  ⟨⟨by decide, by decide, by decide⟩,
    click_changes_at_most_target_cell createInitialState 0
      (by decide) (by decide) (by decide)⟩

/-- C8: For every prior match state, `resetGame` produces a state equal to
the fresh initial state — all 9 cells empty, currentPlayer 'X', outcome in
progress with no winning line — with no dependency on the previous state. -/
theorem resetGame_yields_fresh_initial_state (s : GameState) :
    resetGame s = createInitialState ∧
    (resetGame s).board = List.replicate 9 none ∧
    (resetGame s).currentPlayer = Mark.X ∧
    (resetGame s).winner = none ∧
    (resetGame s).winningLine = none :=
  ⟨rfl, rfl, rfl, rfl, rfl⟩

/-- C9: For every match state with a 9-cell board and every integer index
outside [0,8] (such as 9 or -1), `handleCellClick index` returns without any
effect: the out-of-range call takes the silent guard path and leaves the
match state equal to the pre-call state. -/
theorem out_of_range_click_is_noop (s : GameState) (index : Int)
    (hb : s.board.length = 9) (h : index < 0 ∨ 9 ≤ index) :
    handleCellClick s index = s := by
  have hnone : jsGet s.board index = none := by
    apply jsGet_out_of_range
    rw [hb]
    omega
  unfold handleCellClick
  rw [if_pos (Or.inl (by rw [hnone]; simp))]

theorem out_of_range_click_is_noop_witness :
    (createInitialState.board.length = 9 ∧
      ((-1 : Int) < 0 ∨ 9 ≤ (-1 : Int))) ∧
    handleCellClick createInitialState (-1) = createInitialState :=
  ⟨⟨by decide, by decide⟩,
    out_of_range_click_is_noop createInitialState (-1)
      (by decide) (by decide)⟩

/-- C7: For every sequence of N accepted, non-terminal moves starting from
the initial state (first player 'X' to move), the resulting currentPlayer is
'X' if N is even and 'O' if N is odd — the current player alternates
strictly while the outcome remains in progress. -/
theorem alternation_from_initial (moves : List Int)
    (h : allAcceptedNonTerminal createInitialState moves = true) :
    (applyMoves createInitialState moves).currentPlayer =
      if moves.length % 2 = 0 then Mark.X else Mark.O := by
  rw [applyMoves_parity moves createInitialState h]
  by_cases hpar : moves.length % 2 = 0
  · rw [if_pos hpar, if_pos hpar]
    rfl
  · rw [if_neg hpar, if_neg hpar]
    rfl

theorem alternation_from_initial_witness :
    allAcceptedNonTerminal createInitialState [0, 1] = true ∧
    (applyMoves createInitialState [0, 1]).currentPlayer =
      if ([0, 1] : List Int).length % 2 = 0 then Mark.X else Mark.O :=
  ⟨by decide, alternation_from_initial [0, 1] (by decide)⟩

/-- C10: In every state reachable from the initial state by any sequence of
`handleCellClick` and `resetGame` calls, the number of 'X' marks on the
board minus the number of 'O' marks is either 0 or 1; moreover, whenever the
outcome is still in progress, that difference is 0 exactly when
currentPlayer is 'X' and 1 exactly when currentPlayer is 'O'. -/
theorem mark_balance_invariant (s : GameState) (h : Reachable s) :
    (countMark s.board Mark.X = countMark s.board Mark.O ∨
     countMark s.board Mark.X = countMark s.board Mark.O + 1) ∧
    (s.winner = none →
      ((countMark s.board Mark.X = countMark s.board Mark.O ↔
          s.currentPlayer = Mark.X) ∧
       (countMark s.board Mark.X = countMark s.board Mark.O + 1 ↔
          s.currentPlayer = Mark.O))) := by
  obtain ⟨hprog, htot⟩ := balanceInv_reachable s h
  refine ⟨htot, fun hw => ?_⟩
  rcases hprog hw with ⟨hc, hcp⟩ | ⟨hc, hcp⟩
  · refine ⟨⟨fun _ => hcp, fun _ => hc⟩, ?_, ?_⟩
    · intro h1
      exfalso
      omega
    · intro h1
      exfalso
      rw [hcp] at h1
      exact absurd h1 (by decide)
  · refine ⟨⟨?_, ?_⟩, ⟨fun _ => hcp, fun _ => hc⟩⟩
    · intro h1
      exfalso
      omega
    · intro h1
      exfalso
      rw [hcp] at h1
      exact absurd h1 (by decide)

theorem mark_balance_invariant_witness :
    Reachable createInitialState ∧
    ((countMark createInitialState.board Mark.X =
        countMark createInitialState.board Mark.O ∨
      countMark createInitialState.board Mark.X =
        countMark createInitialState.board Mark.O + 1) ∧
    (createInitialState.winner = none →
      ((countMark createInitialState.board Mark.X =
          countMark createInitialState.board Mark.O ↔
        createInitialState.currentPlayer = Mark.X) ∧
       (countMark createInitialState.board Mark.X =
          countMark createInitialState.board Mark.O + 1 ↔
        createInitialState.currentPlayer = Mark.O)))) :=
  ⟨Reachable.init, mark_balance_invariant createInitialState Reachable.init⟩

end TicTacToe
